import Mathlib

/-!
Shallow embedding of src/target_atmel_cm4v2.c (edbg target driver for the
SAM E54 / SAM D51 family): device selection, flash program / verify / read,
lock, and fuse (user row) sequencing.

Each driver operation is modelled as a pure function that returns the
sequence of transport events (register reads/writes, block transfers,
ready polls, file saves, byte/field comparisons) the C code performs, plus
the fatal error it reports, if any.  All loop counters and addresses are
32-bit unsigned in the C source; increments that can wrap are taken
explicitly modulo 2^32.  A block-write event records the destination
address, the source offset into the buffer whose address the C code passes
(the image buffer for program, the local row buffer for fuse), and the
length; the bytes themselves travel by reference in the C code.  Unbounded
ready-polling loops are modelled as single pollReady events (the functional
claims below concern the command sequence, assuming a responsive device);
for the read loop, whose termination is itself in question, an explicit
fuel parameter is used instead.
-/

namespace Cm4v2

/-- Width of the C uint32_t arithmetic used by the driver. -/
def W : Nat := 2 ^ 32

-- Geometry and register constants, named as in the source.
def FLASH_ADDR : Nat := 0

def FLASH_ROW_SIZE : Nat := 8192

def FLASH_PAGE_SIZE : Nat := 512

def PAGES_IN_ERASE_BLOCK : Nat := FLASH_ROW_SIZE / FLASH_PAGE_SIZE

def USER_ROW_ADDR : Nat := 0x00804000

def USER_ROW_SIZE : Nat := 512

def USER_ROW_PAGE_SIZE : Nat := 16

def DSU_CTRL_STATUS : Nat := 0x41002100

def DSU_DID : Nat := 0x41002118

def DSU_STATUSB_PROT : Nat := 2 ^ 16

def NVMCTRL_CTRLA : Nat := 0x41004000

def NVMCTRL_CTRLB : Nat := 0x41004004

def NVMCTRL_INTFLAG_STATUS : Nat := 0x41004010

def NVMCTRL_ADDR : Nat := 0x41004014

def NVMCTRL_CTRLA_AUTOWS : Nat := 2 ^ 2

def NVMCTRL_CTRLA_WMODE_MAN : Nat := 0

def NVMCTRL_CTRLA_PRM_MANUAL : Nat := 3 * 2 ^ 6

def NVMCTRL_CTRLA_CACHEDIS0 : Nat := 2 ^ 14

def NVMCTRL_CTRLA_CACHEDIS1 : Nat := 2 ^ 15

def NVMCTRL_CMD_EP : Nat := 0xa500

def NVMCTRL_CMD_EB : Nat := 0xa501

def NVMCTRL_CMD_WP : Nat := 0xa503

def NVMCTRL_CMD_WQW : Nat := 0xa504

def NVMCTRL_CMD_UR : Nat := 0xa512

def NVMCTRL_CMD_PBC : Nat := 0xa515

def NVMCTRL_CMD_SSB : Nat := 0xa516

def DEVICE_ID_MASK : Nat := 0xfffff0ff

def DEVICE_REV_SHIFT : Nat := 8

def DEVICE_REV_MASK : Nat := 0xf

/-- Device descriptor, as in the C `device_t`. -/
structure device_t where
  dsu_did : Nat
  name : String
  flash_size : Nat
  deriving DecidableEq

/-- The static device table, including the zero sentinel entry of the C array. -/
def devices : List device_t :=
  [⟨0x61840000, "SAM E54P20A", 1 * 1024 * 1024⟩,
   ⟨0x60060000, "SAM D51P20A", 1 * 1024 * 1024⟩,
   ⟨0, "", 0⟩]

/-- The table scan of `target_select`: walk the array until the sentinel
(`dsu_did > 0` loop condition), returning the first entry whose id equals
the masked identification value. -/
def findDevice : List device_t → Nat → Option device_t
  | [], _ => none
  | d :: rest, id =>
    if d.dsu_did > 0 then
      if d.dsu_did = id then some d else findDevice rest id
    else none

/-- Outcome of `target_select`: either a device entry together with the
stored options copy and the reported revision letter (`65 = 'A'`), or the
fatal unknown-device error carrying the raw identification value. -/
inductive SelResult (Opts : Type) where
  | selected (device : device_t) (options : Opts) (revLetter : Nat)
  | unknown (dsu_did : Nat)
  deriving DecidableEq

/-- `target_select`, given the value the DSU_DID register read returns. -/
def target_select {Opts : Type} (options : Opts) (dsu_did : Nat) : SelResult Opts :=
  let id := dsu_did &&& DEVICE_ID_MASK
  let rev := (dsu_did >>> DEVICE_REV_SHIFT) &&& DEVICE_REV_MASK
  match findDevice devices id with
  | some device => SelResult.selected device options (65 + rev)
  | none => SelResult.unknown dsu_did

/-- The global session pair (`target_device`, `target_options`) after a call
to `target_select`: assigned on a match; untouched when `error_exit` fires
before the assignments (the C `error_exit` never returns). -/
def select_state {Opts : Type} (prior : device_t × Opts) (options : Opts) (dsu_did : Nat) :
    device_t × Opts :=
  match target_select options dsu_did with
  | SelResult.selected d o _ => (d, o)
  | SelResult.unknown _ => prior

/-- Transport / observation events of the driver operations. -/
inductive Ev where
  | readWord (addr : Nat)
  | writeWord (addr value : Nat)
  | readBlock (addr size : Nat)
  | writeBlock (addr srcOff size : Nat)
  | pollReady (addr : Nat)
  | saveFile (size : Nat)
  | compareByte (idx expected got : Nat)
  | compareField (expected got : Nat)
  deriving DecidableEq

/-- Fatal errors of the flash sequencer. -/
inductive Err where
  | deviceLocked
  deriving DecidableEq

/-- Fatal errors of the fuse sequencer. -/
inductive FuseErr where
  | unsupportedFuseSection
  | fuseRangeRequired
  | fuseVerificationFailed
  deriving DecidableEq

/-- `target_lock`: a single command-register write, no polling. -/
def target_lock : List Ev := [Ev.writeWord NVMCTRL_CTRLA NVMCTRL_CMD_SSB]

/-- The event sequence of one page iteration of `target_program`'s inner
loop: set address, page-buffer clear + poll, block-write the page from
source offset `offs`, write-page command + poll. -/
def pageEvs (addr offs : Nat) : List Ev :=
  [Ev.writeWord NVMCTRL_ADDR addr,
   Ev.writeWord NVMCTRL_CTRLB NVMCTRL_CMD_PBC, Ev.pollReady NVMCTRL_INTFLAG_STATUS,
   Ev.writeBlock addr offs FLASH_PAGE_SIZE,
   Ev.writeWord NVMCTRL_CTRLB NVMCTRL_CMD_WP, Ev.pollReady NVMCTRL_INTFLAG_STATUS]

/-- `target_program`'s inner page loop, running `n` more iterations from
the current `addr` / `offs`; returns the events and the final
`addr` / `offs` (uint32 increments). -/
def programPages : Nat → Nat → Nat → List Ev × Nat × Nat
  | addr, offs, 0 => ([], addr, offs)
  | addr, offs, n + 1 =>
    let rest := programPages ((addr + FLASH_PAGE_SIZE) % W) ((offs + FLASH_PAGE_SIZE) % W) n
    (pageEvs addr offs ++ rest.1, rest.2)

/-- The row prologue of `target_program`: set address, unlock region +
poll, erase block + poll. -/
def rowHeadEvs (addr : Nat) : List Ev :=
  [Ev.writeWord NVMCTRL_ADDR addr,
   Ev.writeWord NVMCTRL_CTRLB NVMCTRL_CMD_UR, Ev.pollReady NVMCTRL_INTFLAG_STATUS,
   Ev.writeWord NVMCTRL_CTRLB NVMCTRL_CMD_EB, Ev.pollReady NVMCTRL_INTFLAG_STATUS]

/-- `target_program`'s row loop, `n` more rows. -/
def programRows : Nat → Nat → Nat → List Ev
  | _, _, 0 => []
  | addr, offs, n + 1 =>
    let pages := programPages addr offs PAGES_IN_ERASE_BLOCK
    rowHeadEvs addr ++ pages.1 ++ programRows pages.2.1 pages.2.2 n

/-- The NVMCTRL_CTRLA configuration word written once by `target_program`. -/
def NVMCTRL_CTRLA_CONFIG : Nat :=
  NVMCTRL_CTRLA_AUTOWS ||| NVMCTRL_CTRLA_WMODE_MAN ||| NVMCTRL_CTRLA_PRM_MANUAL |||
    NVMCTRL_CTRLA_CACHEDIS0 ||| NVMCTRL_CTRLA_CACHEDIS1

/-- `target_program`, given the value the DSU_CTRL_STATUS read returns, the
caller offset and the image size.  Faithful to the C: the protection check
precedes everything else; `number_of_rows = (size + FLASH_ROW_SIZE - 1) /
FLASH_ROW_SIZE` in uint32 arithmetic; each row always runs all
`PAGES_IN_ERASE_BLOCK` page iterations. -/
def target_program (dsu_status off size : Nat) : List Ev × Option Err :=
  let addr := (FLASH_ADDR + off) % W
  if dsu_status &&& DSU_STATUSB_PROT ≠ 0 then
    ([Ev.readWord DSU_CTRL_STATUS], some Err.deviceLocked)
  else
    let number_of_rows := ((size + FLASH_ROW_SIZE - 1) % W) / FLASH_ROW_SIZE
    ([Ev.readWord DSU_CTRL_STATUS, Ev.writeWord NVMCTRL_CTRLA NVMCTRL_CTRLA_CONFIG]
      ++ programRows addr 0 number_of_rows, none)

/-- The inner comparison loop of `target_verify` (`for i = 0; i <
block_size`): first index `i` (counting from the current `i`, with `n`
iterations left) at which the image byte `bufa (offs + i)` differs from the
read-back byte `mem (addr + i)`. -/
def page_scan (bufa mem : Nat → Nat) (addr offs : Nat) : Nat → Nat → Option Nat
  | _, 0 => none
  | i, n + 1 =>
    if bufa (offs + i) ≠ mem (addr + i) then some i
    else page_scan bufa mem addr offs (i + 1) n

/-- `target_verify`'s while loop.  `mem` gives the byte the transport
returns for each device address.  Returns `none` on success, or `some
(address, expected, read)` for the first mismatching byte. -/
def target_verify_loop (bufa mem : Nat → Nat) (addr offs size : Nat) :
    Option (Nat × Nat × Nat) :=
  if _h : size = 0 then none
  else
    let block_size := min size FLASH_PAGE_SIZE
    match page_scan bufa mem addr offs 0 block_size with
    | some i => some (addr + i, bufa (offs + i), mem (addr + i))
    | none =>
      target_verify_loop bufa mem ((addr + FLASH_PAGE_SIZE) % W)
        ((offs + FLASH_PAGE_SIZE) % W) (size - block_size)
termination_by size
decreasing_by
  simp [FLASH_PAGE_SIZE]
  omega

/-- `target_verify`: compare the image (`bufa`, indexed from 0) of length
`size` against device memory starting at `FLASH_ADDR + off`. -/
def target_verify (bufa mem : Nat → Nat) (off size : Nat) : Option (Nat × Nat × Nat) :=
  target_verify_loop bufa mem ((FLASH_ADDR + off) % W) 0 size

/-- `target_read`'s while loop, with explicit fuel: `none` means the loop
is still running after `fuel` iterations.  The uint32 decrement `size -=
FLASH_PAGE_SIZE` wraps modulo 2^32, exactly as in the C. -/
def target_read_loop : Nat → Nat → Nat → Option (List Ev)
  | 0, _, _ => none
  | fuel + 1, addr, size =>
    if size = 0 then some []
    else
      (target_read_loop fuel ((addr + FLASH_PAGE_SIZE) % W)
          ((size + (W - FLASH_PAGE_SIZE)) % W)).map
        (fun evs => Ev.readBlock addr FLASH_PAGE_SIZE :: evs)

/-- `target_read`: page-size block reads from `FLASH_ADDR + off`, then one
`save_file` of the caller buffer with the requested length. -/
def target_read (fuel off size : Nat) : Option (List Ev) :=
  (target_read_loop fuel ((FLASH_ADDR + off) % W) size).map
    (fun evs => evs ++ [Ev.saveFile size])

/-- `target_read` terminates on the given inputs with some finite fuel. -/
def readTerminates (off size : Nat) : Prop :=
  ∃ fuel, (target_read fuel off size).isSome

/-- The options record consumed by `target_fuse` (the fuse-related fields
of `target_options_t`).  `fuse_name` models the C `char *` name (null =
`none`); `fuse_data` the named buffer's bytes. -/
structure FuseOpts where
  fuse_section : Int
  fuse_read : Bool
  fuse_write : Bool
  fuse_verify : Bool
  fuse_name : Option String
  fuse_start : Int
  fuse_end : Int
  fuse_value : Nat
  fuse_data : Nat → Nat
  fuse_size : Int

/-- The byte-comparison loop of `target_fuse`'s verify-with-named-buffer
branch: one `compareByte` event per executed comparison, stopping at the
first mismatch with a fuse-verification failure. -/
def compareBytes (expected got : Nat → Nat) : Nat → Nat → List Ev × Option FuseErr
  | _, 0 => ([], none)
  | i, n + 1 =>
    if expected i ≠ got i then
      ([Ev.compareByte i (expected i) (got i)], some FuseErr.fuseVerificationFailed)
    else
      let rest := compareBytes expected got (i + 1) n
      (Ev.compareByte i (expected i) (got i) :: rest.1, rest.2)

/-- The sub-page commit loop of `target_fuse`'s write section. -/
def fuse_commit_pages : Nat → Nat → Nat → List Ev
  | _, _, 0 => []
  | addr, offs, n + 1 =>
    [Ev.writeWord NVMCTRL_ADDR USER_ROW_ADDR,
     Ev.writeBlock addr offs USER_ROW_PAGE_SIZE,
     Ev.writeWord NVMCTRL_CTRLB NVMCTRL_CMD_WQW, Ev.pollReady NVMCTRL_INTFLAG_STATUS]
      ++ fuse_commit_pages (addr + USER_ROW_PAGE_SIZE) (offs + USER_ROW_PAGE_SIZE) n

/-- `target_fuse`.  `_mem` gives the bytes of the initial user-row read,
`remem` those of the re-read performed by the verify section;
`extract_value` is the external bit-range extraction collaborator.  The
bytes of the initial read only feed logging and the local row buffer,
whose contents travel by reference into the block writes; they influence
neither the event sequence nor the errors, so they are not carried in the
events (see the module comment). -/
def target_fuse (o : FuseOpts) (_mem remem : Nat → Nat)
    (extract_value : (Nat → Nat) → Int → Int → Nat) : List Ev × Option FuseErr :=
  if o.fuse_section ≠ 0 then ([], some FuseErr.unsupportedFuseSection)
  else
    let read_all := o.fuse_start = -1
    let size := (min o.fuse_size (USER_ROW_SIZE : Int)).toNat
    let readEvs : List Ev :=
      if o.fuse_read then
        match o.fuse_name with
        | some _ => [Ev.saveFile USER_ROW_SIZE]
        | none => []
      else []
    let writeEvs : List Ev :=
      if o.fuse_write then
        [Ev.writeWord NVMCTRL_ADDR USER_ROW_ADDR,
         Ev.writeWord NVMCTRL_CTRLB NVMCTRL_CMD_EP, Ev.pollReady NVMCTRL_INTFLAG_STATUS,
         Ev.writeWord NVMCTRL_CTRLB NVMCTRL_CMD_PBC, Ev.pollReady NVMCTRL_INTFLAG_STATUS]
          ++ fuse_commit_pages USER_ROW_ADDR 0 (USER_ROW_SIZE / USER_ROW_PAGE_SIZE)
      else []
    let pre := [Ev.readBlock USER_ROW_ADDR USER_ROW_SIZE] ++ readEvs ++ writeEvs
    if o.fuse_verify then
      let buf2 : Nat → Nat := fun i => remem (USER_ROW_ADDR + i)
      match o.fuse_name with
      | some _ =>
        let r := compareBytes o.fuse_data buf2 0 size
        (pre ++ [Ev.readBlock USER_ROW_ADDR USER_ROW_SIZE] ++ r.1, r.2)
      | none =>
        if read_all then
          (pre ++ [Ev.readBlock USER_ROW_ADDR USER_ROW_SIZE], some FuseErr.fuseRangeRequired)
        else
          let value := extract_value buf2 o.fuse_start o.fuse_end
          if o.fuse_value ≠ value then
            (pre ++ [Ev.readBlock USER_ROW_ADDR USER_ROW_SIZE,
              Ev.compareField o.fuse_value value], some FuseErr.fuseVerificationFailed)
          else
            (pre ++ [Ev.readBlock USER_ROW_ADDR USER_ROW_SIZE,
              Ev.compareField o.fuse_value value], none)
    else (pre, none)

/-- Spy transport: the memory contents after replaying the block writes of
an event trace over initial contents `init`, where a `writeBlock a o n`
stores `data (o + (x - a))` at each covered address `x` (the bytes of the
program image buffer). -/
def spyMem (data : Nat → Nat) : (Nat → Nat) → List Ev → Nat → Nat
  | init, [] => init
  | init, ev :: rest =>
    let m : Nat → Nat :=
      match ev with
      | Ev.writeBlock a o n =>
        fun x => if a ≤ x ∧ x < a + n then data (o + (x - a)) else init x
      | _ => init
    spyMem data m rest

/-- Is this event a write of command `cmd` to the NVM command register
NVMCTRL_CTRLB? -/
def isCmdWrite (cmd : Nat) : Ev → Bool
  | Ev.writeWord a v => a == NVMCTRL_CTRLB && v == cmd
  | _ => false

/-- The block-write events of a trace, as (address, source offset, length)
triples, in order. -/
def writeBlocksOf (tr : List Ev) : List (Nat × Nat × Nat) :=
  tr.filterMap (fun e => match e with
    | Ev.writeBlock a o n => some (a, o, n)
    | _ => none)

/-- Is this event a byte or bit-field comparison? -/
def isCompare : Ev → Bool
  | Ev.compareByte _ _ _ => true
  | Ev.compareField _ _ => true
  | _ => false

/-! ### Structure of the `target_program` event trace -/

theorem writeBlocksOf_append (l1 l2 : List Ev) :
    writeBlocksOf (l1 ++ l2) = writeBlocksOf l1 ++ writeBlocksOf l2 := by
  simp [writeBlocksOf, List.filterMap_append]

theorem mem_writeBlocksOf (tr : List Ev) (a o n : Nat) :
    (a, o, n) ∈ writeBlocksOf tr ↔ Ev.writeBlock a o n ∈ tr := by
  simp only [writeBlocksOf, List.mem_filterMap]
  constructor
  · rintro ⟨e, he, hsome⟩
    cases e <;> simp_all
  · intro h
    exact ⟨_, h, rfl⟩

theorem countP_pageEvs_WP (addr offs : Nat) :
    (pageEvs addr offs).countP (isCmdWrite NVMCTRL_CMD_WP) = 1 := by
  simp [pageEvs, isCmdWrite, List.countP_cons, NVMCTRL_ADDR, NVMCTRL_CTRLB,
    NVMCTRL_CMD_PBC, NVMCTRL_CMD_WP]

theorem countP_pageEvs_UR (addr offs : Nat) :
    (pageEvs addr offs).countP (isCmdWrite NVMCTRL_CMD_UR) = 0 := by
  simp [pageEvs, isCmdWrite, List.countP_cons, NVMCTRL_ADDR, NVMCTRL_CTRLB,
    NVMCTRL_CMD_PBC, NVMCTRL_CMD_WP, NVMCTRL_CMD_UR]

theorem countP_pageEvs_EB (addr offs : Nat) :
    (pageEvs addr offs).countP (isCmdWrite NVMCTRL_CMD_EB) = 0 := by
  simp [pageEvs, isCmdWrite, List.countP_cons, NVMCTRL_ADDR, NVMCTRL_CTRLB,
    NVMCTRL_CMD_PBC, NVMCTRL_CMD_WP, NVMCTRL_CMD_EB]

theorem countP_rowHeadEvs_WP (addr : Nat) :
    (rowHeadEvs addr).countP (isCmdWrite NVMCTRL_CMD_WP) = 0 := by
  simp [rowHeadEvs, isCmdWrite, List.countP_cons, NVMCTRL_ADDR, NVMCTRL_CTRLB,
    NVMCTRL_CMD_UR, NVMCTRL_CMD_EB, NVMCTRL_CMD_WP]

theorem countP_rowHeadEvs_UR (addr : Nat) :
    (rowHeadEvs addr).countP (isCmdWrite NVMCTRL_CMD_UR) = 1 := by
  simp [rowHeadEvs, isCmdWrite, List.countP_cons, NVMCTRL_ADDR, NVMCTRL_CTRLB,
    NVMCTRL_CMD_UR, NVMCTRL_CMD_EB]

theorem countP_rowHeadEvs_EB (addr : Nat) :
    (rowHeadEvs addr).countP (isCmdWrite NVMCTRL_CMD_EB) = 1 := by
  simp [rowHeadEvs, isCmdWrite, List.countP_cons, NVMCTRL_ADDR, NVMCTRL_CTRLB,
    NVMCTRL_CMD_UR, NVMCTRL_CMD_EB]

theorem countP_programPages_WP (n : Nat) :
    ∀ addr offs : Nat, ((programPages addr offs n).1).countP (isCmdWrite NVMCTRL_CMD_WP) = n := by
  induction n with
  | zero => intro addr offs; simp [programPages]
  | succ n ih =>
    intro addr offs
    simp [programPages, List.countP_append, countP_pageEvs_WP, ih]
    omega

theorem countP_programPages_UR (n : Nat) :
    ∀ addr offs : Nat, ((programPages addr offs n).1).countP (isCmdWrite NVMCTRL_CMD_UR) = 0 := by
  induction n with
  | zero => intro addr offs; simp [programPages]
  | succ n ih =>
    intro addr offs
    simp [programPages, List.countP_append, countP_pageEvs_UR, ih]

theorem countP_programPages_EB (n : Nat) :
    ∀ addr offs : Nat, ((programPages addr offs n).1).countP (isCmdWrite NVMCTRL_CMD_EB) = 0 := by
  induction n with
  | zero => intro addr offs; simp [programPages]
  | succ n ih =>
    intro addr offs
    simp [programPages, List.countP_append, countP_pageEvs_EB, ih]

theorem countP_programRows_WP (n : Nat) :
    ∀ addr offs : Nat, (programRows addr offs n).countP (isCmdWrite NVMCTRL_CMD_WP) = 16 * n := by
  induction n with
  | zero => intro addr offs; simp [programRows]
  | succ n ih =>
    intro addr offs
    simp [programRows, List.countP_append, countP_rowHeadEvs_WP, countP_programPages_WP, ih,
      PAGES_IN_ERASE_BLOCK, FLASH_ROW_SIZE, FLASH_PAGE_SIZE]
    omega

theorem countP_programRows_UR (n : Nat) :
    ∀ addr offs : Nat, (programRows addr offs n).countP (isCmdWrite NVMCTRL_CMD_UR) = n := by
  induction n with
  | zero => intro addr offs; simp [programRows]
  | succ n ih =>
    intro addr offs
    simp [programRows, List.countP_append, countP_rowHeadEvs_UR, countP_programPages_UR, ih]
    omega

theorem countP_programRows_EB (n : Nat) :
    ∀ addr offs : Nat, (programRows addr offs n).countP (isCmdWrite NVMCTRL_CMD_EB) = n := by
  induction n with
  | zero => intro addr offs; simp [programRows]
  | succ n ih =>
    intro addr offs
    simp [programRows, List.countP_append, countP_rowHeadEvs_EB, countP_programPages_EB, ih]
    omega

theorem writeBlocksOf_pageEvs (addr offs : Nat) :
    writeBlocksOf (pageEvs addr offs) = [(addr, offs, 512)] := by
  simp [pageEvs, writeBlocksOf, FLASH_PAGE_SIZE]

theorem writeBlocksOf_rowHeadEvs (addr : Nat) :
    writeBlocksOf (rowHeadEvs addr) = [] := by
  simp [rowHeadEvs, writeBlocksOf]

theorem writeBlocksOf_programPages (n : Nat) :
    ∀ addr offs : Nat, addr + 512 * n ≤ W → offs + 512 * n ≤ W →
      writeBlocksOf (programPages addr offs n).1 =
        (List.range n).map (fun p => (addr + 512 * p, offs + 512 * p, 512)) := by
  induction n with
  | zero => intro addr offs _ _; simp [programPages, writeBlocksOf]
  | succ n ih =>
    intro addr offs ha ho
    have hW : W = 4294967296 := rfl
    rcases Nat.eq_zero_or_pos n with hn | hn
    · subst hn
      simp [programPages, writeBlocksOf, pageEvs, FLASH_PAGE_SIZE, List.range_succ]
    · have h1 : addr + 512 < W := by omega
      have h2 : offs + 512 < W := by omega
      simp only [programPages, FLASH_PAGE_SIZE]
      rw [Nat.mod_eq_of_lt h1, Nat.mod_eq_of_lt h2]
      rw [writeBlocksOf_append, writeBlocksOf_pageEvs,
        ih (addr + 512) (offs + 512) (by omega) (by omega)]
      rw [List.range_succ_eq_map]
      simp only [List.map_cons, List.map_map, List.singleton_append, mul_zero, add_zero]
      congr 1
      apply List.map_congr_left
      intro p hp
      simp only [Function.comp_apply, Nat.succ_eq_add_one, Prod.mk.injEq]
      exact ⟨by omega, by omega, trivial⟩

theorem programPages_snd (n : Nat) :
    ∀ addr offs : Nat, addr + 512 * n < W → offs + 512 * n < W →
      (programPages addr offs n).2 = (addr + 512 * n, offs + 512 * n) := by
  induction n with
  | zero => intro addr offs _ _; simp [programPages]
  | succ n ih =>
    intro addr offs ha ho
    have hW : W = 4294967296 := rfl
    have h1 : addr + 512 < W := by omega
    have h2 : offs + 512 < W := by omega
    simp only [programPages, FLASH_PAGE_SIZE]
    rw [Nat.mod_eq_of_lt h1, Nat.mod_eq_of_lt h2, ih (addr + 512) (offs + 512) (by omega) (by omega)]
    simp only [Prod.mk.injEq]
    omega

theorem writeBlocksOf_programRows (n : Nat) :
    ∀ addr offs : Nat, addr + 8192 * n ≤ W → offs + 8192 * n ≤ W →
      writeBlocksOf (programRows addr offs n) =
        (List.range (16 * n)).map (fun p => (addr + 512 * p, offs + 512 * p, 512)) := by
  induction n with
  | zero => intro addr offs _ _; simp [programRows, writeBlocksOf]
  | succ n ih =>
    intro addr offs ha ho
    have hW : W = 4294967296 := rfl
    have hPAGES : PAGES_IN_ERASE_BLOCK = 16 := rfl
    rcases Nat.eq_zero_or_pos n with hn | hn
    · subst hn
      simp only [programRows, hPAGES, writeBlocksOf_append, writeBlocksOf_rowHeadEvs]
      rw [writeBlocksOf_programPages 16 addr offs (by omega) (by omega)]
      simp [programRows, writeBlocksOf]
    · have hsnd : (programPages addr offs PAGES_IN_ERASE_BLOCK).2 =
          (addr + 512 * 16, offs + 512 * 16) := by
        rw [hPAGES]
        exact programPages_snd 16 addr offs (by omega) (by omega)
      simp only [programRows, writeBlocksOf_append, writeBlocksOf_rowHeadEvs, hsnd]
      rw [hPAGES, writeBlocksOf_programPages 16 addr offs (by omega) (by omega)]
      rw [ih (addr + 512 * 16) (offs + 512 * 16) (by omega) (by omega)]
      rw [show 16 * (n + 1) = 16 + 16 * n by ring, List.range_add]
      simp only [List.map_append, List.map_map, List.nil_append]
      congr 1
      apply List.map_congr_left
      intro p hp
      simp only [Function.comp_apply, Prod.mk.injEq]
      exact ⟨by omega, by omega, trivial⟩

theorem target_program_writeBlocks (status off L : Nat)
    (hs : status &&& DSU_STATUSB_PROT = 0) (hL : L + 8191 < W)
    (hb : off + 8192 * ((L + 8191) / 8192) ≤ W) :
    writeBlocksOf (target_program status off L).1 =
      (List.range (16 * ((L + 8191) / 8192))).map (fun p => (off + 512 * p, 512 * p, 512)) := by
  have hW : W = 4294967296 := rfl
  have hrowsz : ((L + FLASH_ROW_SIZE - 1) % W) / FLASH_ROW_SIZE = (L + 8191) / 8192 := by
    have h1 : L + FLASH_ROW_SIZE - 1 = L + 8191 := by
      simp [FLASH_ROW_SIZE]
    rw [h1, Nat.mod_eq_of_lt (by omega)]
    rfl
  simp only [target_program, hs, ne_eq, not_true_eq_false, if_false]
  rcases Nat.eq_zero_or_pos ((L + 8191) / 8192) with hr | hr
  · simp [hrowsz, hr, programRows, writeBlocksOf]
  · have hoff : off < W := by omega
    have haddr : (FLASH_ADDR + off) % W = off := by
      simp only [FLASH_ADDR, Nat.zero_add]
      exact Nat.mod_eq_of_lt hoff
    simp only [hrowsz, haddr, writeBlocksOf_append]
    rw [show writeBlocksOf [Ev.readWord DSU_CTRL_STATUS,
        Ev.writeWord NVMCTRL_CTRLA NVMCTRL_CTRLA_CONFIG] = [] from rfl]
    rw [writeBlocksOf_programRows ((L + 8191) / 8192) off 0 hb (by omega)]
    simp

theorem target_program_counts (status off L : Nat)
    (hs : status &&& DSU_STATUSB_PROT = 0) (hL : L + 8191 < W) :
    (target_program status off L).1.countP (isCmdWrite NVMCTRL_CMD_UR) = (L + 8191) / 8192 ∧
    (target_program status off L).1.countP (isCmdWrite NVMCTRL_CMD_EB) = (L + 8191) / 8192 ∧
    (target_program status off L).1.countP (isCmdWrite NVMCTRL_CMD_WP) =
      16 * ((L + 8191) / 8192) := by
  have hW : W = 4294967296 := rfl
  have hrowsz : ((L + FLASH_ROW_SIZE - 1) % W) / FLASH_ROW_SIZE = (L + 8191) / 8192 := by
    have h1 : L + FLASH_ROW_SIZE - 1 = L + 8191 := by
      simp [FLASH_ROW_SIZE]
    rw [h1, Nat.mod_eq_of_lt (by omega)]
    rfl
  simp only [target_program, hs, ne_eq, not_true_eq_false, if_false, hrowsz]
  refine ⟨?_, ?_, ?_⟩ <;>
    simp [List.countP_cons, List.countP_append, countP_programRows_UR, countP_programRows_EB,
      countP_programRows_WP, isCmdWrite, NVMCTRL_CTRLA, NVMCTRL_CTRLB, DSU_CTRL_STATUS]

/-! ### Semantics of `target_verify` -/

theorem page_scan_none_iff (bufa mem : Nat → Nat) (addr offs : Nat) (n : Nat) :
    ∀ i : Nat, (page_scan bufa mem addr offs i n = none ↔
      ∀ j, i ≤ j → j < i + n → bufa (offs + j) = mem (addr + j)) := by
  induction n with
  | zero =>
    intro i
    simp only [page_scan]
    constructor
    · intro _ j h1 h2; omega
    · intro _; trivial
  | succ n ih =>
    intro i
    simp only [page_scan]
    by_cases h : bufa (offs + i) ≠ mem (addr + i)
    · rw [if_pos h]
      constructor
      · intro hc; simp at hc
      · intro hall; exact absurd (hall i le_rfl (by omega)) h
    · rw [if_neg h]
      have heq : bufa (offs + i) = mem (addr + i) := not_not.mp h
      rw [ih (i + 1)]
      constructor
      · intro hall j h1 h2
        rcases Nat.eq_or_lt_of_le h1 with rfl | hlt
        · exact heq
        · exact hall j hlt (by omega)
      · intro hall j h1 h2
        exact hall j (by omega) (by omega)

theorem page_scan_first (bufa mem : Nat → Nat) (addr offs : Nat) (n : Nat) :
    ∀ i k : Nat, i ≤ k → k < i + n →
      (∀ j, i ≤ j → j < k → bufa (offs + j) = mem (addr + j)) →
      bufa (offs + k) ≠ mem (addr + k) →
      page_scan bufa mem addr offs i n = some k := by
  induction n with
  | zero => intro i k h1 h2 _ _; omega
  | succ n ih =>
    intro i k h1 h2 hmatch hdiff
    simp only [page_scan]
    rcases Nat.eq_or_lt_of_le h1 with rfl | hlt
    · rw [if_pos hdiff]
    · rw [if_neg (not_not.mpr (hmatch i le_rfl hlt))]
      exact ih (i + 1) k (by omega) (by omega) (fun j hj1 hj2 => hmatch j (by omega) hj2) hdiff

theorem page_scan_some_inv (bufa mem : Nat → Nat) (addr offs : Nat) (n : Nat) :
    ∀ i k : Nat, page_scan bufa mem addr offs i n = some k →
      i ≤ k ∧ k < i + n ∧ bufa (offs + k) ≠ mem (addr + k) := by
  induction n with
  | zero => intro i k h; simp [page_scan] at h
  | succ n ih =>
    intro i k h
    simp only [page_scan] at h
    by_cases hc : bufa (offs + i) ≠ mem (addr + i)
    · rw [if_pos hc] at h
      obtain rfl : i = k := by simpa using h
      exact ⟨le_rfl, by omega, hc⟩
    · rw [if_neg hc] at h
      obtain ⟨h1, h2, h3⟩ := ih (i + 1) k h
      exact ⟨by omega, by omega, h3⟩

theorem target_verify_loop_zero (bufa mem : Nat → Nat) (addr offs : Nat) :
    target_verify_loop bufa mem addr offs 0 = none := by
  unfold target_verify_loop
  simp

theorem target_verify_loop_succ (bufa mem : Nat → Nat) (addr offs size : Nat) (h : size ≠ 0) :
    target_verify_loop bufa mem addr offs size =
      match page_scan bufa mem addr offs 0 (min size FLASH_PAGE_SIZE) with
      | some i => some (addr + i, bufa (offs + i), mem (addr + i))
      | none =>
        target_verify_loop bufa mem ((addr + FLASH_PAGE_SIZE) % W)
          ((offs + FLASH_PAGE_SIZE) % W) (size - min size FLASH_PAGE_SIZE) := by
  conv_lhs => unfold target_verify_loop
  rw [dif_neg h]

set_option maxRecDepth 4000 in
theorem target_verify_loop_none_iff (size : Nat) :
    ∀ addr offs : Nat, ∀ bufa mem : Nat → Nat, addr + size ≤ W → offs + size ≤ W →
      (target_verify_loop bufa mem addr offs size = none ↔
        ∀ i < size, bufa (offs + i) = mem (addr + i)) := by
  induction size using Nat.strong_induction_on with
  | _ size ih =>
    intro addr offs bufa mem ha ho
    rcases Nat.eq_zero_or_pos size with hz | hpos
    · subst hz
      simp [target_verify_loop_zero]
    · have hW : W = 4294967296 := rfl
      have hFP : FLASH_PAGE_SIZE = 512 := rfl
      have hsz : size ≠ 0 := by omega
      rw [target_verify_loop_succ bufa mem addr offs size hsz]
      cases hscan : page_scan bufa mem addr offs 0 (min size FLASH_PAGE_SIZE) with
      | some k =>
        obtain ⟨_, hk2, hk3⟩ := page_scan_some_inv bufa mem addr offs (min size FLASH_PAGE_SIZE) 0 k hscan
        rw [hFP] at hk2
        refine iff_of_false (by simp) (fun hall => hk3 (hall k (by omega)))
      | none =>
        have hallpage : ∀ j, j < min size 512 → bufa (offs + j) = mem (addr + j) := by
          have hx := (page_scan_none_iff bufa mem addr offs (min size FLASH_PAGE_SIZE) 0).mp hscan
          rw [hFP] at hx
          intro j hj
          exact hx j (by omega) (by omega)
        rcases le_or_lt size 512 with hle | hgt
        · have hmin : min size FLASH_PAGE_SIZE = size := by rw [hFP]; omega
          rw [hmin, Nat.sub_self, target_verify_loop_zero]
          constructor
          · intro _ i hi
            exact hallpage i (by omega)
          · intro _; rfl
        · have hmin : min size FLASH_PAGE_SIZE = 512 := by rw [hFP]; omega
          have h1 : addr + 512 < W := by omega
          have h2 : offs + 512 < W := by omega
          rw [hmin, hFP, Nat.mod_eq_of_lt h1, Nat.mod_eq_of_lt h2]
          rw [ih (size - 512) (by omega) (addr + 512) (offs + 512) bufa mem (by omega) (by omega)]
          constructor
          · intro hrest i hi
            rcases Nat.lt_or_ge i 512 with hi5 | hi5
            · exact hallpage i (by omega)
            · have := hrest (i - 512) (by omega)
              have e1 : addr + 512 + (i - 512) = addr + i := by omega
              have e2 : offs + 512 + (i - 512) = offs + i := by omega
              rwa [e1, e2] at this
          · intro hall i hi
            have := hall (512 + i) (by omega)
            have e1 : addr + (512 + i) = addr + 512 + i := by omega
            have e2 : offs + (512 + i) = offs + 512 + i := by omega
            rwa [e1, e2] at this

theorem target_verify_loop_first (size : Nat) :
    ∀ addr offs k : Nat, ∀ bufa mem : Nat → Nat,
      addr + size ≤ W → offs + size ≤ W → k < size →
      (∀ i < k, bufa (offs + i) = mem (addr + i)) →
      bufa (offs + k) ≠ mem (addr + k) →
      target_verify_loop bufa mem addr offs size =
        some (addr + k, bufa (offs + k), mem (addr + k)) := by
  induction size using Nat.strong_induction_on with
  | _ size ih =>
    intro addr offs k bufa mem ha ho hk hmatch hdiff
    have hW : W = 4294967296 := rfl
    have hFP : FLASH_PAGE_SIZE = 512 := rfl
    have hsz : size ≠ 0 := by omega
    rw [target_verify_loop_succ bufa mem addr offs size hsz]
    rcases Nat.lt_or_ge k (min size 512) with hkb | hkb
    · have hscan : page_scan bufa mem addr offs 0 (min size FLASH_PAGE_SIZE) = some k := by
        apply page_scan_first bufa mem addr offs (min size FLASH_PAGE_SIZE) 0 k (by omega)
        · rw [hFP]; omega
        · intro j _ hj2
          exact hmatch j hj2
        · exact hdiff
      rw [hscan]
    · have hgt : 512 < size := by omega
      have hmin : min size FLASH_PAGE_SIZE = 512 := by rw [hFP]; omega
      have hk5 : 512 ≤ k := by omega
      have hscan : page_scan bufa mem addr offs 0 (min size FLASH_PAGE_SIZE) = none := by
        rw [page_scan_none_iff bufa mem addr offs (min size FLASH_PAGE_SIZE) 0]
        intro j _ hj2
        rw [hmin] at hj2
        exact hmatch j (by omega)
      rw [hscan, hmin, hFP]
      have h1 : addr + 512 < W := by omega
      have h2 : offs + 512 < W := by omega
      rw [Nat.mod_eq_of_lt h1, Nat.mod_eq_of_lt h2]
      have e1 : addr + 512 + (k - 512) = addr + k := by omega
      have e2 : offs + 512 + (k - 512) = offs + k := by omega
      rw [← e1, ← e2]
      apply ih (size - 512) (by omega) (addr + 512) (offs + 512) (k - 512) bufa mem
        (by omega) (by omega) (by omega)
      · intro i hi
        have := hmatch (512 + i) (by omega)
        have e3 : addr + (512 + i) = addr + 512 + i := by omega
        have e4 : offs + (512 + i) = offs + 512 + i := by omega
        rwa [e3, e4] at this
      · rwa [e1, e2]

/-! ### The spy transport memory after `target_program` -/

/-- Replay a list of (address, source offset, length) block writes over
initial contents `m`; later writes shadow earlier ones. -/
def applyWrites (data : Nat → Nat) : (Nat → Nat) → List (Nat × Nat × Nat) → Nat → Nat
  | m, [] => m
  | m, (a, o, n) :: ws =>
    applyWrites data (fun x => if a ≤ x ∧ x < a + n then data (o + (x - a)) else m x) ws

theorem spyMem_eq_applyWrites (data : Nat → Nat) (tr : List Ev) :
    ∀ init : Nat → Nat, spyMem data init tr = applyWrites data init (writeBlocksOf tr) := by
  induction tr with
  | nil => intro init; rfl
  | cons ev rest ih =>
    intro init
    cases ev <;> simp [spyMem, writeBlocksOf, List.filterMap_cons, applyWrites, ih]

theorem applyWrites_out (data : Nat → Nat) (ws : List (Nat × Nat × Nat)) :
    ∀ (m : Nat → Nat) (x : Nat), (∀ w ∈ ws, x < w.1 ∨ w.1 + w.2.2 ≤ x) →
      applyWrites data m ws x = m x := by
  induction ws with
  | nil => intro m x _; rfl
  | cons w ws ih =>
    intro m x hout
    obtain ⟨a, o, n⟩ := w
    simp only [applyWrites]
    rw [ih _ x (fun v hv => hout v (List.mem_cons_of_mem _ hv))]
    have hw := hout (a, o, n) (List.mem_cons_self _ _)
    simp only at hw
    rw [if_neg (by omega)]

set_option maxRecDepth 4000 in
theorem applyWrites_pages (data : Nat → Nat) (N : Nat) :
    ∀ (addr base k : Nat) (m : Nat → Nat), k < 512 * N →
      applyWrites data m
        ((List.range N).map (fun p => (addr + 512 * p, base + 512 * p, 512))) (addr + k) =
        data (base + k) := by
  induction N with
  | zero => intro addr base k m hk; omega
  | succ N ih =>
    intro addr base k m hk
    rw [List.range_succ_eq_map]
    simp only [List.map_cons, List.map_map, mul_zero, add_zero]
    have hmapeq :
        (List.range N).map ((fun p => (addr + 512 * p, base + 512 * p, 512)) ∘ Nat.succ) =
          (List.range N).map (fun p => (addr + 512 + 512 * p, base + 512 + 512 * p, 512)) := by
      apply List.map_congr_left
      intro p hp
      simp only [Function.comp_apply, Nat.succ_eq_add_one, Prod.mk.injEq]
      exact ⟨by omega, by omega, trivial⟩
    simp only [applyWrites]
    rw [hmapeq]
    rcases Nat.lt_or_ge k 512 with hk5 | hk5
    · have hout : ∀ w ∈ (List.range N).map
          (fun p => (addr + 512 + 512 * p, base + 512 + 512 * p, 512)),
          (addr + k) < w.1 ∨ w.1 + w.2.2 ≤ addr + k := by
        intro w hw
        simp only [List.mem_map, List.mem_range] at hw
        obtain ⟨p, hp, rfl⟩ := hw
        exact Or.inl (by show addr + k < addr + 512 + 512 * p; omega)
      rw [applyWrites_out data _ _ _ hout]
      show (if addr ≤ addr + k ∧ addr + k < addr + 512 then data (base + (addr + k - addr))
        else m (addr + k)) = data (base + k)
      rw [if_pos (by omega)]
      congr 1
      omega
    · have e : addr + k = addr + 512 + (k - 512) := by omega
      rw [e, ih (addr + 512) (base + 512) (k - 512) _ (by omega)]
      congr 1
      omega

theorem spyMem_program (data init : Nat → Nat) (status off L k : Nat)
    (hs : status &&& DSU_STATUSB_PROT = 0) (hL : L + 8191 < W)
    (hb : off + 8192 * ((L + 8191) / 8192) ≤ W)
    (hk : k < 512 * (16 * ((L + 8191) / 8192))) :
    spyMem data init (target_program status off L).1 (off + k) = data k := by
  rw [spyMem_eq_applyWrites, target_program_writeBlocks status off L hs hL hb]
  have hmapeq :
      (List.range (16 * ((L + 8191) / 8192))).map (fun p => (off + 512 * p, 512 * p, 512)) =
        (List.range (16 * ((L + 8191) / 8192))).map
          (fun p => (off + 512 * p, 0 + 512 * p, 512)) := by
    apply List.map_congr_left
    intro p hp
    simp
  rw [hmapeq, applyWrites_pages data _ off 0 k init hk]
  simp

/-! ### Semantics of `target_read` -/

theorem target_read_loop_succ (fuel addr size : Nat) (h : size ≠ 0) :
    target_read_loop (fuel + 1) addr size =
      (target_read_loop fuel ((addr + FLASH_PAGE_SIZE) % W)
          ((size + (W - FLASH_PAGE_SIZE)) % W)).map
        (fun evs => Ev.readBlock addr FLASH_PAGE_SIZE :: evs) := by
  conv_lhs => unfold target_read_loop
  rw [if_neg h]

theorem target_read_loop_stuck (fuel : Nat) :
    ∀ addr size : Nat, size % 512 = 100 → target_read_loop fuel addr size = none := by
  induction fuel with
  | zero => intro addr size _; rfl
  | succ fuel ih =>
    intro addr size h
    have hsz : size ≠ 0 := by omega
    rw [target_read_loop_succ fuel addr size hsz]
    rw [ih ((addr + FLASH_PAGE_SIZE) % W) ((size + (W - FLASH_PAGE_SIZE)) % W) (by
      have hW : W = 4294967296 := rfl
      have hFP : FLASH_PAGE_SIZE = 512 := rfl
      rw [hW, hFP]
      omega)]
    rfl

theorem target_read_loop_runs (n : Nat) :
    ∀ addr size : Nat, addr < W → size < W → size = 512 * n →
      target_read_loop (n + 1) addr size =
        some ((List.range n).map (fun i => Ev.readBlock ((addr + 512 * i) % W) 512)) := by
  induction n with
  | zero =>
    intro addr size ha hs hsz
    subst hsz
    simp [target_read_loop]
  | succ n ih =>
    intro addr size ha hs hsz
    have hW : W = 4294967296 := rfl
    have hsz0 : size ≠ 0 := by omega
    have hFP : FLASH_PAGE_SIZE = 512 := rfl
    rw [target_read_loop_succ (n + 1) addr size hsz0, hFP]
    have hnext : (size + (W - 512)) % W = 512 * n := by rw [hW]; rw [hW] at hs; omega
    rw [hnext, ih ((addr + 512) % W) (512 * n) (Nat.mod_lt _ (by rw [hW]; omega))
      (by rw [hW]; rw [hW] at hs; omega) rfl]
    simp only [Option.map_some', Option.some.injEq]
    rw [List.range_succ_eq_map]
    simp only [List.map_cons, List.map_map, mul_zero, add_zero, List.cons.injEq]
    constructor
    · rw [Nat.mod_eq_of_lt ha]
    · apply List.map_congr_left
      intro i hi
      simp only [Function.comp_apply, Nat.succ_eq_add_one]
      have e : addr + 512 + 512 * i = addr + 512 * (i + 1) := by omega
      rw [Nat.mod_add_mod, e]

/-! ### Claim theorems -/

/-- C4 (confirmed): whenever the DSU protection status bit reads as set,
`target_program` fails with the Device-Locked error, and the whole event
trace up to the failure is the single read of the protection status
register — no NVM controller register write and no block write happens
before the failure. -/
theorem C4_locked_fails_first (status off L : Nat)
    (h : status &&& DSU_STATUSB_PROT ≠ 0) :
    target_program status off L = ([Ev.readWord DSU_CTRL_STATUS], some Err.deviceLocked) := by
  simp [target_program, h]

/-- Witness for C4 at a concrete locked status word. -/
theorem C4_locked_fails_first_witness :
    (2 ^ 16) &&& DSU_STATUSB_PROT ≠ 0 ∧
      target_program (2 ^ 16) 0 4096 = ([Ev.readWord DSU_CTRL_STATUS], some Err.deviceLocked) :=
  ⟨by decide, C4_locked_fails_first (2 ^ 16) 0 4096 (by decide)⟩

/-- A concrete whole-row fuse write request (write flag only, no buffer
name), used to exhibit the command-register writes of the fuse commit
sequence. -/
def fuseWriteReq : FuseOpts :=
  ⟨0, false, true, false, none, 0, 0, 0, fun _ => 0, 0⟩

/-- C8 (code_bug): `target_lock` does perform exactly one register write
carrying the set-security-bit opcode 0xa516 and performs no polling and no
other access, but it writes the opcode to NVMCTRL_CTRLA (0x41004000), not
to the NVM command register NVMCTRL_CTRLB (0x41004004) to which every
other NVM command in this driver (unlock region, erase block, page-buffer
clear, write page, erase page, write quad word) is issued; the claim (and
the spec) say the command goes to that same command register. -/
theorem C8_lock_wrong_register :
    target_lock = [Ev.writeWord NVMCTRL_CTRLA NVMCTRL_CMD_SSB] ∧
    NVMCTRL_CTRLA ≠ NVMCTRL_CTRLB ∧
    Ev.writeWord NVMCTRL_CTRLB NVMCTRL_CMD_UR ∈ (target_program 0 0 1).1 ∧
    Ev.writeWord NVMCTRL_CTRLB NVMCTRL_CMD_EB ∈ (target_program 0 0 1).1 ∧
    Ev.writeWord NVMCTRL_CTRLB NVMCTRL_CMD_PBC ∈ (target_program 0 0 1).1 ∧
    Ev.writeWord NVMCTRL_CTRLB NVMCTRL_CMD_WP ∈ (target_program 0 0 1).1 ∧
    Ev.writeWord NVMCTRL_CTRLB NVMCTRL_CMD_EP ∈
      (target_fuse fuseWriteReq (fun _ => 0) (fun _ => 0) (fun _ _ _ => 0)).1 ∧
    Ev.writeWord NVMCTRL_CTRLB NVMCTRL_CMD_WQW ∈
      (target_fuse fuseWriteReq (fun _ => 0) (fun _ => 0) (fun _ _ _ => 0)).1 := by
  decide

/-- C2 counterexample: with the identification register returning
0x61841003, masking with 0xfffff0ff yields 0x61841003 itself (the
revision nibble at bits 8..11 is already zero; the mask keeps bits 0..7
and 12..31), which differs from the table entry id 0x61840000, so
selection does not succeed: it fails with the unknown-device error
carrying the raw value. -/
theorem C2_select_counterexample :
    0x61841003 &&& DEVICE_ID_MASK = 0x61841003 ∧
    (0x61841003 : Nat) ≠ 0x61840000 ∧
    target_select (7 : Nat) 0x61841003 = SelResult.unknown 0x61841003 := by
  decide

/-- C2 (corrected): masking 0x61841003 with 0xfffff0ff yields 0x61841003
(bits 8..11 of that value are already zero), not the table id 0x61840000,
so `target_select` fails with the Device-Not-Recognized error carrying the
raw value 0x61841003 — selection does not succeed on that register value.
Selection succeeds exactly for identification values whose masked form
equals the table id — e.g. 0x61840000 with any revision nibble r < 16
inserted at bits 8..11 — and then reports revision letter
'A' + ((v >>> 8) &&& 0xf) = 65 + r. -/
theorem C2_select_example (r : Nat) (hr : r < 16) :
    0x61841003 &&& DEVICE_ID_MASK = 0x61841003 ∧
    target_select (7 : Nat) 0x61841003 = SelResult.unknown 0x61841003 ∧
    target_select (7 : Nat) (0x61840000 ||| (r <<< 8)) =
      SelResult.selected ⟨0x61840000, "SAM E54P20A", 1 * 1024 * 1024⟩ 7 (65 + r) := by
  revert r
  decide

/-- Witness for C2 at revision r = 3 (revision letter 68 = 'D'). -/
theorem C2_select_example_witness :
    (3 : Nat) < 16 ∧
      target_select (7 : Nat) (0x61840000 ||| (3 <<< 8)) =
        SelResult.selected ⟨0x61840000, "SAM E54P20A", 1 * 1024 * 1024⟩ 7 (65 + 3) :=
  ⟨by decide, (C2_select_example 3 (by decide)).2.2⟩

/-- C3 (confirmed): for every identification value v, `target_select`
matches exactly on the masked value `v &&& 0xfffff0ff`: if it equals the
id of a table entry (the two entries have distinct ids, so the first and
only such entry is chosen, independently of the masked-away revision
bits), that entry and the caller options are stored and the revision
letter 65 + ((v >>> 8) &&& 0xf) is reported; if it matches neither entry,
select fails with the Device-Not-Recognized error carrying the raw value
and the global session pair keeps its prior contents. -/
theorem C3_device_lookup {Opts : Type} (opts : Opts) (prior : device_t × Opts) (v : Nat) :
    (v &&& DEVICE_ID_MASK = 0x61840000 →
      target_select opts v =
        SelResult.selected ⟨0x61840000, "SAM E54P20A", 1 * 1024 * 1024⟩ opts
          (65 + ((v >>> 8) &&& 0xf)) ∧
      select_state prior opts v = (⟨0x61840000, "SAM E54P20A", 1 * 1024 * 1024⟩, opts)) ∧
    (v &&& DEVICE_ID_MASK = 0x60060000 →
      target_select opts v =
        SelResult.selected ⟨0x60060000, "SAM D51P20A", 1 * 1024 * 1024⟩ opts
          (65 + ((v >>> 8) &&& 0xf)) ∧
      select_state prior opts v = (⟨0x60060000, "SAM D51P20A", 1 * 1024 * 1024⟩, opts)) ∧
    (v &&& DEVICE_ID_MASK ≠ 0x61840000 → v &&& DEVICE_ID_MASK ≠ 0x60060000 →
      target_select opts v = SelResult.unknown v ∧ select_state prior opts v = prior) := by
  refine ⟨?_, ?_, ?_⟩
  · intro h
    have hsel : target_select opts v =
        SelResult.selected ⟨0x61840000, "SAM E54P20A", 1 * 1024 * 1024⟩ opts
          (65 + ((v >>> 8) &&& 0xf)) := by
      simp [target_select, findDevice, devices, h, DEVICE_REV_SHIFT, DEVICE_REV_MASK]
    exact ⟨hsel, by simp [select_state, hsel]⟩
  · intro h
    have hsel : target_select opts v =
        SelResult.selected ⟨0x60060000, "SAM D51P20A", 1 * 1024 * 1024⟩ opts
          (65 + ((v >>> 8) &&& 0xf)) := by
      simp [target_select, findDevice, devices, h, DEVICE_REV_SHIFT, DEVICE_REV_MASK]
    exact ⟨hsel, by simp [select_state, hsel]⟩
  · intro h1 h2
    have hsel : target_select opts v = SelResult.unknown v := by
      simp [target_select, findDevice, devices, Ne.symm h1, Ne.symm h2]
    exact ⟨hsel, by simp [select_state, hsel]⟩

/-- Witness for C3 at v = 0x61840500 (masked id matches the first entry,
revision nibble 5, letter 70 = 'F'). -/
theorem C3_device_lookup_witness :
    0x61840500 &&& DEVICE_ID_MASK = 0x61840000 ∧
      target_select (0 : Nat) 0x61840500 =
        SelResult.selected ⟨0x61840000, "SAM E54P20A", 1 * 1024 * 1024⟩ 0
          (65 + ((0x61840500 >>> 8) &&& 0xf)) :=
  ⟨by decide, ((C3_device_lookup (0 : Nat) (⟨0, "", 0⟩, 0) 0x61840500).1 (by decide)).1⟩

/-- C1 counterexample: at image length L = 512 the code issues 16 page
writes (one full erase block), while the claim predicts
ceil(512/512) = 1 page write. -/
theorem C1_pagecount_counterexample :
    (target_program 0 0 512).1.countP (isCmdWrite NVMCTRL_CMD_WP) = 16 ∧
    (512 + 512 - 1) / 512 = 1 ∧ (16 : Nat) ≠ 1 := by
  decide

/-- C1 (corrected): for any image length L > 0 on an unlocked device,
`target_program` issues exactly ceil(L/8192) = (L + 8191) / 8192 row-erase
cycles (that many unlock-region commands and that many erase-block
commands), but 16 * ceil(L/8192) page writes — always PAGES_IN_ERASE_BLOCK
pages per row — not ceil(L/512) as claimed; the i-th page block write
targets start address off + i*512 with source offset i*512 and length 512,
and the page writes are strictly increasing and non-overlapping. -/
theorem C1_row_page_iteration (status off L : Nat)
    (hs : status &&& DSU_STATUSB_PROT = 0) (_hpos : 0 < L) (hL : L + 8191 < W)
    (hb : off + 8192 * ((L + 8191) / 8192) ≤ W) :
    (target_program status off L).1.countP (isCmdWrite NVMCTRL_CMD_UR) = (L + 8191) / 8192 ∧
    (target_program status off L).1.countP (isCmdWrite NVMCTRL_CMD_EB) = (L + 8191) / 8192 ∧
    (target_program status off L).1.countP (isCmdWrite NVMCTRL_CMD_WP) =
      16 * ((L + 8191) / 8192) ∧
    writeBlocksOf (target_program status off L).1 =
      (List.range (16 * ((L + 8191) / 8192))).map (fun p => (off + 512 * p, 512 * p, 512)) ∧
    (writeBlocksOf (target_program status off L).1).Pairwise
      (fun x y => x.1 + x.2.2 ≤ y.1) := by
  obtain ⟨h1, h2, h3⟩ := target_program_counts status off L hs hL
  have h4 := target_program_writeBlocks status off L hs hL hb
  refine ⟨h1, h2, h3, h4, ?_⟩
  rw [h4, List.pairwise_map]
  refine (List.pairwise_lt_range _).imp ?_
  intro a b hab
  show off + 512 * a + 512 ≤ off + 512 * b
  omega

/-- Witness for C1 at L = 8192 (one row, sixteen page writes). -/
theorem C1_row_page_iteration_witness :
    (0 &&& DSU_STATUSB_PROT = 0) ∧ (0 < 8192) ∧ (8192 + 8191 < W) ∧
      (0 + 8192 * ((8192 + 8191) / 8192) ≤ W) ∧
      ((target_program 0 0 8192).1.countP (isCmdWrite NVMCTRL_CMD_WP) =
        16 * ((8192 + 8191) / 8192)) :=
  ⟨by decide, by decide, by decide, by decide,
    (C1_row_page_iteration 0 0 8192 (by decide) (by decide) (by decide) (by decide)).2.2.1⟩

/-- C10 (confirmed): when the image length L is not a multiple of the row
size 8192, `target_program` issues block writes whose source offsets run
past the end of the image buffer: every byte offset j with
L ≤ j < 16*ceil(L/8192)*512 lies in the source range [o, o+512) of some
issued block write (an out-of-bounds read of the L-byte image buffer), and
in particular some block write has o + 512 > L; when 8192 divides L, every
block write's source range stays within [0, L). -/
theorem C10_source_overrun (status off L : Nat)
    (hs : status &&& DSU_STATUSB_PROT = 0) (hL : L + 8191 < W)
    (hb : off + 8192 * ((L + 8191) / 8192) ≤ W) :
    (¬ (8192 ∣ L) →
      ∃ a o, Ev.writeBlock a o 512 ∈ (target_program status off L).1 ∧ L < o + 512) ∧
    (∀ j, L ≤ j → j < 16 * ((L + 8191) / 8192) * 512 →
      ∃ a o, Ev.writeBlock a o 512 ∈ (target_program status off L).1 ∧ o ≤ j ∧ j < o + 512) ∧
    ((8192 ∣ L) →
      ∀ a o n, Ev.writeBlock a o n ∈ (target_program status off L).1 → o + n ≤ L) := by
  have hwb := target_program_writeBlocks status off L hs hL hb
  have hmem : ∀ a o n : Nat, Ev.writeBlock a o n ∈ (target_program status off L).1 ↔
      ∃ p, p < 16 * ((L + 8191) / 8192) ∧ off + 512 * p = a ∧ 512 * p = o ∧ 512 = n := by
    intro a o n
    rw [← mem_writeBlocksOf, hwb]
    simp only [List.mem_map, List.mem_range]
    constructor
    · rintro ⟨p, hp, heq⟩
      simp only [Prod.mk.injEq] at heq
      exact ⟨p, hp, heq.1, heq.2.1, heq.2.2⟩
    · rintro ⟨p, hp, rfl, rfl, rfl⟩
      exact ⟨p, hp, rfl⟩
  refine ⟨?_, ?_, ?_⟩
  · intro hnd
    have hr : 1 ≤ (L + 8191) / 8192 := by omega
    refine ⟨off + 512 * (16 * ((L + 8191) / 8192) - 1),
      512 * (16 * ((L + 8191) / 8192) - 1),
      (hmem _ _ _).mpr ⟨16 * ((L + 8191) / 8192) - 1, by omega, rfl, rfl, rfl⟩, ?_⟩
    omega
  · intro j hj1 hj2
    refine ⟨off + 512 * (j / 512), 512 * (j / 512),
      (hmem _ _ _).mpr ⟨j / 512, by omega, rfl, rfl, rfl⟩, by omega, by omega⟩
  · intro hdvd a o n hm
    obtain ⟨p, hp, _, rfl, rfl⟩ := (hmem a o n).mp hm
    omega

/-- Witness for C10 at L = 100 (one row, source offsets up to 8191 with an
image of only 100 bytes). -/
theorem C10_source_overrun_witness :
    ¬ (8192 ∣ 100) ∧
      (∃ a o, Ev.writeBlock a o 512 ∈ (target_program 0 0 100).1 ∧ 100 < o + 512) :=
  ⟨by omega, (C10_source_overrun 0 0 100 (by decide) (by decide) (by decide)).1 (by omega)⟩

/-- Success of `target_verify` is exactly agreement of the first `size`
image bytes with the read-back memory. -/
theorem target_verify_none_iff (bufa mem : Nat → Nat) (off size : Nat)
    (ha : off + size ≤ W) :
    target_verify bufa mem off size = none ↔ ∀ i < size, bufa i = mem (off + i) := by
  rcases Nat.eq_zero_or_pos size with hz | hpos
  · subst hz
    simp [target_verify, target_verify_loop_zero]
  · have hW : W = 4294967296 := rfl
    have hoff : off < W := by omega
    have haddr : (FLASH_ADDR + off) % W = off := by
      rw [show FLASH_ADDR + off = off by simp [FLASH_ADDR]]
      exact Nat.mod_eq_of_lt hoff
    have h1 := target_verify_loop_none_iff size off 0 bufa mem (by omega) (by omega)
    simp only [Nat.zero_add] at h1
    unfold target_verify
    rw [haddr]
    exact h1

/-- `target_verify` reports the first mismatching byte: its absolute
address and both values. -/
theorem target_verify_first (bufa mem : Nat → Nat) (off size k : Nat)
    (ha : off + size ≤ W) (hk : k < size)
    (hmatch : ∀ i < k, bufa i = mem (off + i)) (hdiff : bufa k ≠ mem (off + k)) :
    target_verify bufa mem off size = some (off + k, bufa k, mem (off + k)) := by
  have hW : W = 4294967296 := rfl
  have hoff : off < W := by omega
  have haddr : (FLASH_ADDR + off) % W = off := by
    rw [show FLASH_ADDR + off = off by simp [FLASH_ADDR]]
    exact Nat.mod_eq_of_lt hoff
  have h2 := target_verify_loop_first size off 0 k bufa mem (by omega) (by omega) hk
    (by simpa using hmatch) (by simpa using hdiff)
  simpa [target_verify, haddr] using h2

/-- The outcome of `target_verify` depends only on the `size` memory bytes
at addresses off..off+size-1. -/
theorem target_verify_congr (bufa mem mem2 : Nat → Nat) (off size : Nat)
    (ha : off + size ≤ W) (hagree : ∀ i < size, mem2 (off + i) = mem (off + i)) :
    target_verify bufa mem2 off size = target_verify bufa mem off size := by
  by_cases hall : ∀ i < size, bufa i = mem (off + i)
  · rw [(target_verify_none_iff bufa mem off size ha).mpr hall,
      (target_verify_none_iff bufa mem2 off size ha).mpr
        (fun i hi => (hall i hi).trans (hagree i hi).symm)]
  · have hex : ∃ k, k < size ∧ bufa k ≠ mem (off + k) := by
      push_neg at hall
      obtain ⟨i, hi, hne⟩ := hall
      exact ⟨i, hi, hne⟩
    obtain ⟨hksz, hkne⟩ := Nat.find_spec hex
    have hmatch : ∀ i, i < Nat.find hex → bufa i = mem (off + i) := by
      intro i hi
      by_contra hne
      exact Nat.find_min hex hi ⟨lt_trans hi hksz, hne⟩
    have hmatch2 : ∀ i, i < Nat.find hex → bufa i = mem2 (off + i) := fun i hi =>
      (hmatch i hi).trans (hagree i (lt_trans hi hksz)).symm
    have hkne2 : bufa (Nat.find hex) ≠ mem2 (off + Nat.find hex) := by
      rw [hagree _ hksz]
      exact hkne
    rw [target_verify_first bufa mem2 off size (Nat.find hex) ha hksz hmatch2 hkne2,
      target_verify_first bufa mem off size (Nat.find hex) ha hksz hmatch hkne,
      hagree _ hksz]

/-- C5 (confirmed): `target_verify` compares exactly the first `size`
bytes of the image against the read-back device bytes: it succeeds iff
all of them agree; at the first differing byte k it reports exactly that
byte's absolute address off + k together with the expected image byte and
the read byte, and fails — no later byte influences the outcome; and the
result depends only on the memory bytes inside [off, off + size), so for
a trailing partial page only the remaining size - (size/512)*512 bytes of
that page are compared. -/
theorem C5_verify_semantics (bufa mem : Nat → Nat) (off size : Nat)
    (ha : off + size ≤ W) :
    (target_verify bufa mem off size = none ↔ ∀ i < size, bufa i = mem (off + i)) ∧
    (∀ k, k < size → (∀ i < k, bufa i = mem (off + i)) → bufa k ≠ mem (off + k) →
      target_verify bufa mem off size = some (off + k, bufa k, mem (off + k))) ∧
    (∀ mem2 : Nat → Nat, (∀ i < size, mem2 (off + i) = mem (off + i)) →
      target_verify bufa mem2 off size = target_verify bufa mem off size) :=
  ⟨target_verify_none_iff bufa mem off size ha,
   fun k hk hm hd => target_verify_first bufa mem off size k ha hk hm hd,
   fun mem2 hagree => target_verify_congr bufa mem mem2 off size ha hagree⟩

/-- Witness for C5: a two-byte image differing from memory in its second
byte; verify reports address 1 with expected 6 and read 7. -/
theorem C5_verify_semantics_witness :
    (0 + 2 ≤ W) ∧
      target_verify (fun i => [5, 6].getD i 0) (fun a => [5, 7].getD a 0) 0 2 =
        some (0 + 1, 6, 7) :=
  ⟨by decide,
    (C5_verify_semantics (fun i => [5, 6].getD i 0) (fun a => [5, 7].getD a 0) 0 2
      (by decide)).2.1 1 (by decide) (by decide) (by decide)⟩

/-- C6 counterexample: for requested length 100 — not a multiple of the
page size — the uint32 down-count `size -= 512` steps over zero and
wraps, so the read loop never reaches zero: no finite fuel completes it,
i.e. `target_read` does not terminate, contradicting the claim that it
terminates for every requested length. -/
theorem C6_read_nontermination : ¬ readTerminates 0 100 := by
  rintro ⟨fuel, hsome⟩
  have h := target_read_loop_stuck fuel (FLASH_ADDR % W) 100 (by decide)
  simp [target_read, h] at hsome

/-- C6 (corrected): the read loop terminates only for requested lengths
that are multiples of the page size (the uint32 counter decreases by
exactly 512 per iteration, so a remainder makes it step over zero and
wrap).  When 512 ∣ L, `target_read` completes with exactly L/512
sequential page-size block reads starting at the target offset, followed
by exactly one hand-off of the caller buffer (length L) to the file-save
collaborator; for L = 100 it never terminates (see the counterexample). -/
theorem C6_read_terminates_multiple (off L : Nat)
    (hoff : off < W) (hL : L < W) (hdvd : 512 ∣ L) :
    target_read (L / 512 + 1) off L =
      some (((List.range (L / 512)).map (fun i => Ev.readBlock ((off + 512 * i) % W) 512)) ++
        [Ev.saveFile L]) := by
  obtain ⟨n, hn⟩ := hdvd
  have hquot : L / 512 = n := by omega
  have haddr : (FLASH_ADDR + off) % W = off := by
    rw [show FLASH_ADDR + off = off by simp [FLASH_ADDR]]
    exact Nat.mod_eq_of_lt hoff
  unfold target_read
  rw [haddr, hquot, target_read_loop_runs n off L hoff hL hn]
  rfl

/-- Witness for C6 at off = 0, L = 1024: two block reads then one save. -/
theorem C6_read_terminates_multiple_witness :
    (0 < W) ∧ (1024 < W) ∧ (512 ∣ 1024) ∧
      target_read (1024 / 512 + 1) 0 1024 =
        some (((List.range (1024 / 512)).map
          (fun i => Ev.readBlock ((0 + 512 * i) % W) 512)) ++ [Ev.saveFile 1024]) :=
  ⟨by decide, by decide, ⟨2, rfl⟩,
    C6_read_terminates_multiple 0 1024 (by decide) (by decide) ⟨2, rfl⟩⟩

/-- C7 (confirmed): over a spy transport whose block reads return exactly
the bytes previously block-written at the same addresses (`spyMem` folded
over the program trace), programming an image and then verifying the same
image at the same offset succeeds; and flipping any single byte of the
spy's backing store inside the image region to a different value makes
verify fail, reporting exactly that byte's address, the expected image
byte, and the flipped value that was read. -/
theorem C7_program_verify_roundtrip (image : List Nat) (off : Nat) (init : Nat → Nat)
    (status : Nat) (hs : status &&& DSU_STATUSB_PROT = 0)
    (hL : image.length + 8191 < W)
    (hb : off + 8192 * ((image.length + 8191) / 8192) ≤ W) :
    target_verify (fun i => image.getD i 0)
      (spyMem (fun i => image.getD i 0) init (target_program status off image.length).1)
      off image.length = none ∧
    (∀ k b, k < image.length → b ≠ image.getD k 0 →
      target_verify (fun i => image.getD i 0)
        (Function.update
          (spyMem (fun i => image.getD i 0) init (target_program status off image.length).1)
          (off + k) b)
        off image.length = some (off + k, image.getD k 0, b)) := by
  have hW : W = 4294967296 := rfl
  have hbound : image.length ≤ 512 * (16 * ((image.length + 8191) / 8192)) := by omega
  have hmemval : ∀ k, k < image.length →
      spyMem (fun i => image.getD i 0) init (target_program status off image.length).1
        (off + k) = image.getD k 0 := by
    intro k hk
    exact spyMem_program (fun i => image.getD i 0) init status off image.length k hs hL hb
      (by omega)
  have hva : off + image.length ≤ W := by omega
  constructor
  · exact (target_verify_none_iff (fun i => image.getD i 0) _ off image.length hva).mpr
      (fun i hi => (hmemval i hi).symm)
  · intro k b hk hbk
    have hfirst := target_verify_first (fun i => image.getD i 0)
      (Function.update
        (spyMem (fun i => image.getD i 0) init (target_program status off image.length).1)
        (off + k) b)
      off image.length k hva hk
      (fun i hi => by
        rw [Function.update_noteq (by omega : off + i ≠ off + k)]
        exact (hmemval i (by omega)).symm)
      (by
        rw [Function.update_same]
        exact fun h => hbk h.symm)
    rwa [Function.update_same] at hfirst

/-- Witness for C7: a three-byte image programmed at offset 0; verify over
the spy memory succeeds, and flipping the byte at address 1 to 9 makes
verify fail reporting address 1, expected 2, read 9. -/
theorem C7_program_verify_roundtrip_witness :
    target_verify (fun i => [1, 2, 3].getD i 0)
        (spyMem (fun i => [1, 2, 3].getD i 0) (fun _ => 0)
          (target_program 0 0 [1, 2, 3].length).1) 0 [1, 2, 3].length = none ∧
      target_verify (fun i => [1, 2, 3].getD i 0)
        (Function.update
          (spyMem (fun i => [1, 2, 3].getD i 0) (fun _ => 0)
            (target_program 0 0 [1, 2, 3].length).1) (0 + 1) 9)
        0 [1, 2, 3].length = some (0 + 1, [1, 2, 3].getD 1 0, 9) := by
  have h := C7_program_verify_roundtrip [1, 2, 3] 0 (fun _ => 0) 0 (by decide) (by decide)
    (by decide)
  exact ⟨h.1, h.2 1 9 (by decide) (by decide)⟩

/-- A concrete fuse request with unsupported section index 1, verify flag
set, no buffer name, read-all sentinel start = -1. -/
def fuseBadSectionReq : FuseOpts :=
  ⟨1, false, false, true, none, -1, 0, 0, fun _ => 0, 0⟩

/-- C9 counterexample: a fuse request with the verify flag set, no buffer
name and start = -1 but section index 1 fails with
Unsupported-Fuse-Section, not with Fuse-Range-Required, so the claim as
stated — quantifying over every such request — is false. -/
theorem C9_section_counterexample :
    fuseBadSectionReq.fuse_verify = true ∧ fuseBadSectionReq.fuse_name = none ∧
    fuseBadSectionReq.fuse_start = -1 ∧
    (target_fuse fuseBadSectionReq (fun _ => 0) (fun _ => 0) (fun _ _ _ => 0)).2 =
      some FuseErr.unsupportedFuseSection ∧
    some FuseErr.unsupportedFuseSection ≠ some FuseErr.fuseRangeRequired := by
  exact ⟨rfl, rfl, rfl, rfl, by decide⟩

/-- C9 (corrected): for every fuse request with the supported section
index 0, the verify flag set, no buffer name and the read-all sentinel
start = -1, `target_fuse` fails with the Fuse-Range-Required error and
performs no byte and no bit-field comparison of the re-read row (the
trace contains no comparison event), regardless of the read and write
flags, the device row contents and the extraction collaborator.  A
request with an unsupported section index instead fails earlier with
Unsupported-Fuse-Section (see the counterexample). -/
theorem C9_fuse_range_required (o : FuseOpts) (mem remem : Nat → Nat)
    (ex : (Nat → Nat) → Int → Int → Nat)
    (h1 : o.fuse_section = 0) (h2 : o.fuse_verify = true) (h3 : o.fuse_name = none)
    (h4 : o.fuse_start = -1) :
    (target_fuse o mem remem ex).2 = some FuseErr.fuseRangeRequired ∧
    (target_fuse o mem remem ex).1.countP isCompare = 0 := by
  have hcommit :
      (fuse_commit_pages USER_ROW_ADDR 0 (USER_ROW_SIZE / USER_ROW_PAGE_SIZE)).countP
        isCompare = 0 := by decide
  unfold target_fuse
  rw [if_neg (not_not.mpr h1)]
  simp only [h2, h3, h4, if_true]
  cases hr : o.fuse_read <;> cases hw : o.fuse_write <;>
    simp [List.countP_append, List.countP_cons, List.countP_nil, isCompare, hcommit]

/-- A concrete fuse request exercising C9's amended statement: section 0,
verify only, no name, start = -1. -/
def fuseVerifyAllReq : FuseOpts :=
  ⟨0, false, false, true, none, -1, 0, 0, fun _ => 0, 0⟩

/-- Witness for C9 at a concrete verify-read-all request. -/
theorem C9_fuse_range_required_witness :
    (target_fuse fuseVerifyAllReq (fun _ => 0) (fun _ => 0) (fun _ _ _ => 0)).2 =
        some FuseErr.fuseRangeRequired ∧
      (target_fuse fuseVerifyAllReq (fun _ => 0) (fun _ => 0) (fun _ _ _ => 0)).1.countP
        isCompare = 0 :=
  C9_fuse_range_required fuseVerifyAllReq (fun _ => 0) (fun _ => 0) (fun _ _ _ => 0)
    rfl rfl rfl rfl

end Cm4v2
